import Mathlib

/-!
# Verification of the multi-policy A3C-GCN solver

Shallow embedding of `virne/solver/learning/a3c_gcn/solver.py`
(class `A3CGcnMultiPoliciesSolver` and the module-level function
`obs_as_tensor`), together with proofs of the specified properties.

Python values are rendered as follows: policy parameter sets
(`state_dict()` values) and optimizer states are abstract tokens
(`Nat`); torch tensors over numeric data are lists of integers;
Python `dict`s whose iteration order matters are association lists
(`List (Nat × α)`) iterated in insertion order; exceptions are
`Except`/`Option`; object identity for `RolloutBuffer` objects
(needed because `_fine_tuning_update` aliases `self.buffer`) is a
small store of buffers addressed by `Nat` references.
-/

/-- A policy parameter set (the value of `policy.state_dict()`), abstract. -/
abbrev Params := Nat

/-- An optimizer state (the value of `optimizer.state_dict()`), abstract. -/
abbrev OptState := Nat

/-- A compute device (`torch.device`), abstract. -/
abbrev Device := Nat

/-- One observation record, as produced by the instance environment and
consumed by `obs_as_tensor` / `_split_buffer`.  Fields mirror the keys
read from the Python `dict`: `p_net_x`, `p_net_edge_index`, `v_net_x`,
`curr_v_node_id`, `action_mask`, `v_net_size`. -/
structure Obs where
  p_net_x : List Int
  p_net_edge_index : List (Nat × Nat)
  v_net_x : List Int
  curr_v_node_id : Int
  action_mask : List Int
  v_net_size : Nat
deriving DecidableEq, Repr, Inhabited

/-- A rollout buffer: parallel per-step sequences.  Mirrors the fields of
`RolloutBuffer` used by this file (`observations`, `actions`, `logprobs`,
`rewards`, `returns`, `action_masks`). -/
structure RolloutBuffer where
  observations : List Obs
  actions : List Int
  logprobs : List Int
  rewards : List Int
  returns : List Int
  action_masks : List (List Int)
deriving DecidableEq, Repr, Inhabited

/-- Modelled from the spec: the `RolloutBuffer()` constructor lives in
`rl_base/buffer.py`, outside the provided sources; per the spec the buffer
is "created empty", all parallel sequences empty. -/
def RolloutBuffer.mkEmpty : RolloutBuffer := ⟨[], [], [], [], [], []⟩

/-- Modelled from the spec: `buffer.clear()` lives in `rl_base/buffer.py`,
outside the provided sources; per the spec it clears the buffer's contents
("split or cleared at update time"), leaving every parallel sequence empty. -/
def RolloutBuffer.clear (_b : RolloutBuffer) : RolloutBuffer := RolloutBuffer.mkEmpty

/-! ## Association lists (Python `dict` with insertion-order iteration) -/

/-- Lookup in an association list (`d[k]` / `k in d`). -/
def alookup {α : Type} : List (Nat × α) → Nat → Option α
  | [], _ => none
  | (k, v) :: l, k' => if k = k' then some v else alookup l k'

/-- Assignment `d[k] = v` on a Python dict: replaces the value in place if the key is
present (keeping its position in iteration order), else appends. -/
def aupdate {α : Type} : List (Nat × α) → Nat → α → List (Nat × α)
  | [], k, v => [(k, v)]
  | (k', v') :: l, k, v => if k' = k then (k, v) :: l else (k', v') :: aupdate l k v

/-! ## Sorted distinct values and index selection -/

/-- Insert into a strictly sorted list, skipping duplicates. -/
def insertUniq (x : Nat) : List Nat → List Nat
  | [] => [x]
  | y :: ys => if x < y then x :: y :: ys else if x = y then y :: ys else y :: insertUniq x ys

/-- Python `sorted(list(set(l)))`: the distinct values of `l` in ascending order. -/
def sortedUniq (l : List Nat) : List Nat := l.foldr insertUniq []

/-- Distinct values of `l` in first-occurrence order (iteration order of the
keys of `Counter(l)` / of a dict built by first insertion). -/
def firstDedup : List Nat → List Nat
  | [] => []
  | a :: l => a :: (firstDedup l).filter (fun x => x ≠ a)

/-- Embeds `np.where(labels == t)[0]`: the indices `i` with `labels[i] = t`, in
ascending order. -/
def idxWhere (labels : List Nat) (t : Nat) : List Nat :=
  (List.range labels.length).filter (fun i => labels.getD i (t + 1) == t)

/-! ## `A3CGcnMultiPoliciesSolver._split_buffer` (solver.py lines 143-159) -/

/-- The per-step task labels `[obs['v_net_size'] for obs in buffer.observations]`. -/
def bufferLabels (b : RolloutBuffer) : List Nat :=
  b.observations.map (·.v_net_size)

/-- Embeds `_split_buffer(buffer)`: groups the buffer's steps by the `v_net_size`
label, one fresh sub-buffer per distinct label, keyed and iterated in
ascending label order.  The final re-sort of the keys on line 158 is the
identity here because the sub-buffers are already inserted in ascending
key order (`tasks_list` is sorted). -/
def split_buffer (b : RolloutBuffer) : List (Nat × RolloutBuffer) :=
  let labels := bufferLabels b
  (sortedUniq labels).map (fun t =>
    (t, { RolloutBuffer.mkEmpty with
          observations := (idxWhere labels t).map (fun i => b.observations.getD i default)
          actions := (idxWhere labels t).map (fun i => b.actions.getD i 0)
          logprobs := (idxWhere labels t).map (fun i => b.logprobs.getD i 0)
          rewards := (idxWhere labels t).map (fun i => b.rewards.getD i 0)
          returns := (idxWhere labels t).map (fun i => b.returns.getD i 0) }))

/-- Embeds `_stats_task_dist(buffer)`: `Counter` of the labels — each distinct label
with its multiplicity, iterated in first-occurrence order. -/
def stats_task_dist (b : RolloutBuffer) : List (Nat × Nat) :=
  (firstDedup (bufferLabels b)).map (fun t => (t, (bufferLabels b).count t))

/-! ## Solver state

The mutable fields of `A3CGcnMultiPoliciesSolver` that the verified
methods touch.  `bufStore`/`bufRef`/`nextRef` form a small heap of
`RolloutBuffer` objects: `bufRef` is the reference held by `self.buffer`,
`nextRef` is the allocator for fresh buffer objects — needed because
`_fine_tuning_update` aliases the original buffer (`meta_buffer = 
self.buffer`) and then reassigns `self.buffer` to freshly created
sub-buffers before clearing the original object. -/

structure SolverState where
  metaPolicy : Params
  metaOpt : OptState
  taskPolicies : List (Nat × Params)
  taskOpts : List (Nat × OptState)
  bufStore : List (Nat × RolloutBuffer)
  bufRef : Nat
  nextRef : Nat
deriving DecidableEq, Repr, Inhabited

/-- Read a buffer object from the store. -/
def bufGet (store : List (Nat × RolloutBuffer)) (r : Nat) : RolloutBuffer :=
  (alookup store r).getD RolloutBuffer.mkEmpty

/-- Modelled from the spec: the initial state of a fresh
`torch.optim.Adam(...)` optimizer, outside the provided sources; a fixed
token value. -/
def adamInit : OptState := 0

/-! ## `solve` routing (solver.py lines 81-90)

`solve` selects the policy handed to `super().solve` (assigned to
`self.searcher.policy`); the selection logic is what the claims are
about, so we embed it as the function from the override configuration,
the task-policy table and the instance's virtual-network size to either
the chosen policy or the uncaught `KeyError` (carrying the missing key). -/

/-- The routing of `solve`: if `infer_with_single_task_policy_id != 0`,
look the override id up in `task_policies` (`KeyError` if absent); else
route by `v_net_size`, falling back to the meta-policy for unseen sizes. -/
def solveSelect (s : SolverState) (overrideId : Nat) (vNetSize : Nat) :
    Except Nat Params :=
  if overrideId ≠ 0 then
    match alookup s.taskPolicies overrideId with
    | some p => Except.ok p
    | none => Except.error overrideId
  else
    match alookup s.taskPolicies vNetSize with
    | some p => Except.ok p
    | none => Except.ok s.metaPolicy

/-- The `else` branch of the routing alone (solver.py lines 86-89):
size-based selection with meta-policy fallback. -/
def sizeBasedSelect (s : SolverState) (vNetSize : Nat) : Except Nat Params :=
  match alookup s.taskPolicies vNetSize with
  | some p => Except.ok p
  | none => Except.ok s.metaPolicy

/-- The default of `kwargs.get('infer_with_single_task_policy_id', 0)`
(solver.py line 77). -/
def defaultInferWithSingleTaskPolicyId : Nat := 0

/-! ## Checkpointing (solver.py lines 92-118) -/

/-- A serialized `state_dict` as found inside a checkpoint archive: `some v`
restores the value `v`; `none` models a dict that `load_state_dict`
rejects (schema mismatch), raising before mutating its target. -/
abbrev SavedDict (α : Type) := Option α

/-- The nested dictionary written by `save_model` / read by `load_model`:
an optional `meta_policy` entry (absent key models a `KeyError` on
`checkpoint['meta_policy']`) holding policy and optimizer state dicts, and
an optional `task_policies` entry mapping task ids to their two state
dicts, in dict iteration order. -/
structure CkptData where
  meta : Option (SavedDict Params × SavedDict OptState)
  tasks : Option (List (Nat × (SavedDict Params × SavedDict OptState)))
deriving DecidableEq, Repr, Inhabited

/-- The result of `torch.load(checkpoint_path)`: `unreadable` models a
missing file or corrupt archive (the call itself raises), `readable d`
a successfully deserialized archive. -/
inductive CkptFile where
  | unreadable
  | readable (d : CkptData)
deriving DecidableEq, Repr, Inhabited

/-- The `model_list` comprehension of `save_model` (line 94) together with
the serialization loop (lines 98-99): for each task id of `task_policies`
in iteration order, pair it with its policy state dict and its optimizer
state dict looked up in `task_optimizers`; `none` models the `KeyError`
raised when `task_optimizers` lacks one of the ids. -/
def saveTasks (opts : List (Nat × OptState)) :
    List (Nat × Params) → Option (List (Nat × (SavedDict Params × SavedDict OptState)))
  | [] => some []
  | (tid, p) :: rest =>
      match alookup opts tid with
      | none => none
      | some o =>
          match saveTasks opts rest with
          | none => none
          | some es => some ((tid, (some p, some o)) :: es)

/-- Embeds `save_model(checkpoint_fname)` (lines 92-101): serializes the
meta-policy pair and, for every task id in `task_policies` (iteration
order), that task's policy and optimizer state dicts. -/
def save_model (s : SolverState) : Option CkptData :=
  match saveTasks s.taskOpts s.taskPolicies with
  | none => none
  | some entries =>
      some { meta := some (some s.metaPolicy, some s.metaOpt), tasks := some entries }

/-- The lazy task-policy creation step (lines 110-113, also the body of
`_init_task_policy_and_task_optimizer`, lines 134-137): if no task policy
exists for `tid`, install a deep copy of the current meta-policy and a
fresh optimizer. -/
def ensureTask (s : SolverState) (tid : Nat) : SolverState :=
  if alookup s.taskPolicies tid = none then
    { s with taskPolicies := aupdate s.taskPolicies tid s.metaPolicy
             taskOpts := aupdate s.taskOpts tid adamInit }
  else s

/-- The per-task restoration loop of `load_model` (lines 109-115): for each
task id in the archive, lazily create a task policy (deep copy of the
already-restored meta-policy) and a fresh optimizer when absent, then
restore the saved policy and optimizer state dicts over them.  An
`Except.error` carries the state at the point the exception was raised. -/
def loadTasks (s : SolverState) :
    List (Nat × (SavedDict Params × SavedDict OptState)) →
    Except SolverState SolverState
  | [] => Except.ok s
  | (tid, (sp, so)) :: rest =>
      let s1 := ensureTask s tid
      match sp with
      | none => Except.error s1
      | some p =>
          let s2 := { s1 with taskPolicies := aupdate s1.taskPolicies tid p }
          match so with
          | none => Except.error s2
          | some o => loadTasks { s2 with taskOpts := aupdate s2.taskOpts tid o } rest

/-- The body of `load_model`'s `try` block (lines 106-115), stepwise:
`torch.load`, restore meta policy, restore meta optimizer, then the
per-task loop.  `Except.error` carries the state at the raise point. -/
def loadBody (s : SolverState) (f : CkptFile) : Except SolverState SolverState :=
  match f with
  | CkptFile.unreadable => Except.error s
  | CkptFile.readable d =>
      match d.meta with
      | none => Except.error s
      | some (mp, mo) =>
          match mp with
          | none => Except.error s
          | some p =>
              let s1 := { s with metaPolicy := p }
              match mo with
              | none => Except.error s1
              | some o =>
                  let s2 := { s1 with metaOpt := o }
                  match d.tasks with
                  | none => Except.error s2
                  | some ts => loadTasks s2 ts

/-- Embeds `load_model(checkpoint_path)` (lines 103-118): the `try` body with a
catch-all `except` that swallows any exception, leaving the state as it
was at the raise point. -/
def load_model (s : SolverState) (f : CkptFile) : SolverState :=
  match loadBody s f with
  | Except.ok s' => s'
  | Except.error s' => s'

/-! ## `_fine_tuning_update` / `update` (solver.py lines 131-132, 161-178) -/

/-- Modelled from the spec: the generic policy-gradient update
(`super().update()`, `rl_base`, outside the provided sources) "consumes the
currently active buffer, policy, and optimizer; produces updated
parameters; may fail on numerical errors".  We take it as an arbitrary
function from the active (policy, optimizer, buffer) triple to the updated
pair, `none` modelling a raised exception. -/
abbrev GenericUpdate := Params → OptState → RolloutBuffer → Option (Params × OptState)

/-- The task-policy initialization pass of `_fine_tuning_update`
(lines 164-169): for every task id in the task distribution that lacks a
task policy, create one (deep copy of the meta-policy) with a fresh
optimizer. -/
def ftInit (s : SolverState) : SolverState :=
  (stats_task_dist (bufGet s.bufStore s.bufRef)).foldl
    (fun st td =>
      if alookup st.taskPolicies td.1 = none then
        { st with taskPolicies := aupdate st.taskPolicies td.1 st.metaPolicy
                  taskOpts := aupdate st.taskOpts td.1 adamInit }
      else st)
    s

/-- The inner loop of `_fine_tuning_update` (lines 173-177): for each task
id in sorted order, point `self.policy` / `self.optimizer` at the task's
pair, point `self.buffer` at the task's freshly allocated sub-buffer, and
run the generic update, which mutates the active policy and optimizer in
place (rendered as updating the task tables, since `self.policy` aliases
`task_policies[task_id]`).  `Except.error (t, s)` is the exception raised
while processing task `t`, with `s` the state at that point. -/
def ftLoop (gu : GenericUpdate) :
    List (Nat × RolloutBuffer) → SolverState → Except (Nat × SolverState) SolverState
  | [], s => Except.ok s
  | (t, tb) :: rest, s =>
      let ref := s.nextRef
      let s1 : SolverState :=
        { s with bufStore := aupdate s.bufStore ref tb, bufRef := ref, nextRef := ref + 1 }
      match gu ((alookup s1.taskPolicies t).getD 0) ((alookup s1.taskOpts t).getD 0) tb with
      | none => Except.error (t, s1)
      | some (p, o) =>
          ftLoop gu rest
            { s1 with taskPolicies := aupdate s1.taskPolicies t p
                      taskOpts := aupdate s1.taskOpts t o }

/-- Embeds `_fine_tuning_update()` (lines 161-178): remember the original buffer
object (`meta_buffer = self.buffer`), initialize missing task policies,
split the buffer, run the per-task inner loop, and finally clear the
original buffer object.  An exception from the generic update propagates
uncaught (`Except.error`). -/
def fine_tuning_update (gu : GenericUpdate) (s : SolverState) :
    Except (Nat × SolverState) SolverState :=
  match ftLoop gu (split_buffer (bufGet s.bufStore s.bufRef)) (ftInit s) with
  | Except.error e => Except.error e
  | Except.ok s1 =>
      Except.ok { s1 with
        bufStore := aupdate s1.bufStore s.bufRef ((bufGet s1.bufStore s.bufRef).clear) }

/-- Embeds `update()` (lines 131-132): delegates to `_fine_tuning_update`. -/
def solverUpdate (gu : GenericUpdate) (s : SolverState) :
    Except (Nat × SolverState) SolverState :=
  fine_tuning_update gu s

/-! ## `obs_as_tensor` (solver.py lines 212-240)

The source defines `obs_as_tensor` twice, identically (lines 181-209 and
212-240); the second shadows the first, so a single embedding covers both. -/

/-- Modelled from the spec: `get_pyg_data` (the graph-data conversion
utility from `..utils`, outside the provided sources) "given raw
node-feature and edge-index arrays, produces the graph-structured tensor":
a `Data` object carrying the two arrays. -/
structure PygData where
  x : List Int
  edge_index : List (Nat × Nat)
deriving DecidableEq, Repr, Inhabited

/-- Modelled from the spec: the graph-data conversion utility pairs the
node features with the edge index. -/
def get_pyg_data (x : List Int) (edge_index : List (Nat × Nat)) : PygData :=
  ⟨x, edge_index⟩

/-- The tensor batch returned by `obs_as_tensor`: the batched graph
(`Batch.from_data_list`, modelled as the list of per-observation graphs,
which preserves per-graph boundaries) and the stacked per-field tensors,
all tagged with the target device. -/
structure TensorBatch where
  p_net : List PygData
  v_net_x : List (List Int)
  curr_v_node_id : List Int
  action_mask : List (List Int)
  v_net_size : List Nat
  device : Device
deriving DecidableEq, Repr, Inhabited

/-- The dynamic type of the argument passed to `obs_as_tensor`: a single
observation `dict`, a `list` of observations, or anything else (carrying
the name of its Python type for the error message). -/
inductive ObsInput where
  | one (o : Obs)
  | many (l : List Obs)
  | other (tyName : String)
deriving DecidableEq, Repr, Inhabited

/-- Embeds `obs_as_tensor(obs, device)`: a `dict` takes the single-observation
path (each field wrapped in a singleton batch), a `list` takes the batch
path (fields collected across the list in order), and any other input
raises `Exception(f"Unrecognized type of observation {type(obs)}")`. -/
def obs_as_tensor (obs : ObsInput) (device : Device) : Except String TensorBatch :=
  match obs with
  | ObsInput.one o =>
      Except.ok { p_net := [get_pyg_data o.p_net_x o.p_net_edge_index]
                  v_net_x := [o.v_net_x]
                  curr_v_node_id := [o.curr_v_node_id]
                  action_mask := [o.action_mask]
                  v_net_size := [o.v_net_size]
                  device := device }
  | ObsInput.many l =>
      Except.ok { p_net := l.map (fun ob => get_pyg_data ob.p_net_x ob.p_net_edge_index)
                  v_net_x := l.map (·.v_net_x)
                  curr_v_node_id := l.map (·.curr_v_node_id)
                  action_mask := l.map (·.action_mask)
                  v_net_size := l.map (·.v_net_size)
                  device := device }
  | ObsInput.other tyName =>
      Except.error ("Unrecognized type of observation " ++ tyName)

/-! ## Lemmas on the helper operations -/

theorem mem_insertUniq {x a : Nat} {l : List Nat} :
    a ∈ insertUniq x l ↔ a = x ∨ a ∈ l := by
  induction l with
  | nil => simp [insertUniq]
  | cons y ys ih =>
    by_cases h1 : x < y
    · simp [insertUniq, h1]
    · by_cases h2 : x = y
      · subst h2; simp [insertUniq, h1]
      · simp [insertUniq, h1, h2, ih]
        tauto

theorem sorted_insertUniq {x : Nat} {l : List Nat}
    (h : List.Sorted (· < ·) l) : List.Sorted (· < ·) (insertUniq x l) := by
  induction l with
  | nil => simp [insertUniq]
  | cons y ys ih =>
    rw [List.sorted_cons] at h
    by_cases h1 : x < y
    · rw [insertUniq, if_pos h1, List.sorted_cons]
      refine ⟨?_, List.sorted_cons.2 h⟩
      intro b hb
      rcases List.mem_cons.1 hb with hb | hb
      · omega
      · exact lt_trans h1 (h.1 b hb)
    · by_cases h2 : x = y
      · rw [insertUniq, if_neg h1, if_pos h2]
        exact List.sorted_cons.2 h
      · rw [insertUniq, if_neg h1, if_neg h2, List.sorted_cons]
        refine ⟨?_, ih h.2⟩
        intro b hb
        rcases mem_insertUniq.1 hb with hb | hb
        · omega
        · exact h.1 b hb

theorem sorted_sortedUniq (l : List Nat) : List.Sorted (· < ·) (sortedUniq l) := by
  induction l with
  | nil => simp [sortedUniq]
  | cons a l ih => exact sorted_insertUniq ih

theorem mem_sortedUniq {a : Nat} {l : List Nat} : a ∈ sortedUniq l ↔ a ∈ l := by
  induction l with
  | nil => simp [sortedUniq]
  | cons b l ih =>
    show a ∈ insertUniq b (sortedUniq l) ↔ _
    rw [mem_insertUniq, ih]
    simp

theorem nodup_sortedUniq (l : List Nat) : (sortedUniq l).Nodup :=
  (sorted_sortedUniq l).nodup

theorem perm_sortedUniq_dedup (l : List Nat) : List.Perm (sortedUniq l) l.dedup :=
  (List.perm_ext_iff_of_nodup (nodup_sortedUniq l) l.nodup_dedup).2
    (fun a => by rw [mem_sortedUniq, List.mem_dedup])

theorem mem_idxWhere {labels : List Nat} {t i : Nat} :
    i ∈ idxWhere labels t ↔ labels[i]? = some t := by
  unfold idxWhere
  rw [List.mem_filter, List.mem_range]
  constructor
  · rintro ⟨hi, ht⟩
    have := List.getD_eq_getElem labels (t + 1) hi
    rw [List.getElem?_eq_getElem hi]
    simp only [beq_iff_eq] at ht
    rw [this] at ht
    exact congrArg some ht
  · intro h
    have hi : i < labels.length := by
      by_contra hc
      rw [List.getElem?_eq_none (by omega)] at h
      exact Option.noConfusion h
    refine ⟨hi, ?_⟩
    rw [List.getElem?_eq_getElem hi] at h
    have := List.getD_eq_getElem labels (t + 1) hi
    simp only [beq_iff_eq]
    rw [this]
    exact Option.some.inj h

theorem sorted_idxWhere (labels : List Nat) (t : Nat) :
    List.Sorted (· < ·) (idxWhere labels t) :=
  (List.pairwise_lt_range labels.length).filter _

theorem idxWhere_cons (a : Nat) (l : List Nat) (t : Nat) :
    idxWhere (a :: l) t =
      (if a = t then [0] else []) ++ (idxWhere l t).map (· + 1) := by
  unfold idxWhere
  rw [List.length_cons, List.range_succ_eq_map, List.filter_cons, List.filter_map]
  by_cases h : a = t <;>
    simp [h, Function.comp_def]

theorem length_idxWhere (labels : List Nat) (t : Nat) :
    (idxWhere labels t).length = labels.count t := by
  induction labels with
  | nil => simp [idxWhere]
  | cons a l ih =>
    rw [idxWhere_cons, List.length_append, List.length_map, ih, List.count_cons]
    by_cases h : a = t <;> simp [h, Nat.add_comm]

theorem sum_count_sortedUniq (l : List Nat) :
    ((sortedUniq l).map (fun t => l.count t)).sum = l.length := by
  have hp : List.Perm ((sortedUniq l).map (fun t => l.count t))
      (l.dedup.map (fun t => l.count t)) :=
    (perm_sortedUniq_dedup l).map _
  rw [hp.sum_eq]
  exact List.sum_map_count_dedup_eq_length l

theorem split_buffer_keys (b : RolloutBuffer) :
    (split_buffer b).map Prod.fst = sortedUniq (bufferLabels b) := by
  unfold split_buffer
  rw [List.map_map]
  simp [Function.comp_def]

/-! ## Concrete buffers for scenarios and witnesses -/

/-- An observation with the given `v_net_size` and trivial other fields. -/
def mkObs (sz : Nat) : Obs :=
  { p_net_x := [], p_net_edge_index := [], v_net_x := [], curr_v_node_id := 0,
    action_mask := [], v_net_size := sz }

/-- The buffer of the spec's scenario: `v_net_size` labels 3, 3, 5, 5, 5, 3
with distinguishable parallel sequences. -/
def demoBuffer : RolloutBuffer :=
  { observations := [3, 3, 5, 5, 5, 3].map mkObs
    actions := [10, 11, 12, 13, 14, 15]
    logprobs := [20, 21, 22, 23, 24, 25]
    rewards := [30, 31, 32, 33, 34, 35]
    returns := [40, 41, 42, 43, 44, 45]
    action_masks := [] }

/-! ## C1 and C10: properties of `_split_buffer` -/

/-- C1: `_split_buffer` partitions the buffer exactly: the sub-buffer sizes
sum to the buffer length; the original index sets of distinct task ids are
pairwise disjoint; every index below the buffer length is covered by the
index set of some task id in the mapping, and every selected index is in
range; each sub-buffer gathers the five parallel sequences at its strictly
ascending original indices (preserving relative order); the mapping
iterates in ascending task-id order; and on labels 3, 3, 5, 5, 5, 3 it
yields exactly task 3 at original indices 0, 1, 5 and task 5 at indices
2, 3, 4, iterated as [3, 5]. -/
theorem split_buffer_partition (b : RolloutBuffer)
    (hA : b.actions.length = b.observations.length)
    (hL : b.logprobs.length = b.observations.length)
    (hR : b.rewards.length = b.observations.length)
    (hG : b.returns.length = b.observations.length) :
    (((split_buffer b).map (fun e => e.2.observations.length)).sum
        = b.observations.length)
    ∧ (∀ t t', t ≠ t' →
        ∀ i, i ∈ idxWhere (bufferLabels b) t → i ∉ idxWhere (bufferLabels b) t')
    ∧ (∀ i, i < b.observations.length →
        ∃ t, t ∈ (split_buffer b).map Prod.fst ∧ i ∈ idxWhere (bufferLabels b) t)
    ∧ (∀ t, ∀ i ∈ idxWhere (bufferLabels b) t, i < b.observations.length)
    ∧ (∀ e ∈ split_buffer b,
        List.Sorted (· < ·) (idxWhere (bufferLabels b) e.1)
        ∧ e.2.observations
            = (idxWhere (bufferLabels b) e.1).map (fun i => b.observations.getD i default)
        ∧ e.2.actions = (idxWhere (bufferLabels b) e.1).map (fun i => b.actions.getD i 0)
        ∧ e.2.logprobs = (idxWhere (bufferLabels b) e.1).map (fun i => b.logprobs.getD i 0)
        ∧ e.2.rewards = (idxWhere (bufferLabels b) e.1).map (fun i => b.rewards.getD i 0)
        ∧ e.2.returns = (idxWhere (bufferLabels b) e.1).map (fun i => b.returns.getD i 0))
    ∧ List.Sorted (· < ·) ((split_buffer b).map Prod.fst)
    ∧ ((split_buffer demoBuffer).map Prod.fst = [3, 5]
        ∧ idxWhere (bufferLabels demoBuffer) 3 = [0, 1, 5]
        ∧ idxWhere (bufferLabels demoBuffer) 5 = [2, 3, 4]) := by
  have hlabels : (bufferLabels b).length = b.observations.length :=
    List.length_map _ _
  refine ⟨?_, ?_, ?_, ?_, ?_, ?_, ?_⟩
  · simp only [split_buffer, List.map_map, Function.comp_def, List.length_map,
      length_idxWhere]
    rw [sum_count_sortedUniq]
    exact hlabels
  · intro t t' hne i hi hi'
    rw [mem_idxWhere] at hi hi'
    rw [hi] at hi'
    exact hne (Option.some.inj hi')
  · intro i hi
    have hi' : i < (bufferLabels b).length := by omega
    refine ⟨(bufferLabels b)[i], ?_, ?_⟩
    · rw [split_buffer_keys, mem_sortedUniq]
      exact List.getElem_mem hi'
    · rw [mem_idxWhere, List.getElem?_eq_getElem hi']
  · intro t i hi
    rw [mem_idxWhere] at hi
    have : i < (bufferLabels b).length := by
      by_contra hc
      rw [List.getElem?_eq_none (by omega)] at hi
      exact Option.noConfusion hi
    omega
  · intro e he
    simp only [split_buffer, List.mem_map] at he
    obtain ⟨t, ht, rfl⟩ := he
    exact ⟨sorted_idxWhere _ _, rfl, rfl, rfl, rfl, rfl⟩
  · rw [split_buffer_keys]
    exact sorted_sortedUniq _
  · exact ⟨by decide, by decide, by decide⟩

/-- Witness for C1 at the scenario buffer: its sub-buffer sizes sum to 6. -/
theorem split_buffer_partition_witness :
    ((split_buffer demoBuffer).map (fun e => e.2.observations.length)).sum
      = demoBuffer.observations.length :=
  (split_buffer_partition demoBuffer rfl rfl rfl rfl).1

/-- C10: every sub-buffer returned by `_split_buffer` keeps the
freshly-initialized empty `action_masks` (line 156 is commented out:
only the five other sequences are populated). -/
theorem split_buffer_action_masks (b : RolloutBuffer) (e : Nat × RolloutBuffer)
    (he : e ∈ split_buffer b) :
    e.2.action_masks = RolloutBuffer.mkEmpty.action_masks := by
  simp only [split_buffer, List.mem_map] at he
  obtain ⟨t, ht, rfl⟩ := he
  rfl

/-- Witness for C10 at the scenario buffer's first sub-buffer. -/
theorem split_buffer_action_masks_witness :
    ((split_buffer demoBuffer).getD 0 default ∈ split_buffer demoBuffer)
    ∧ ((split_buffer demoBuffer).getD 0 default).2.action_masks
        = RolloutBuffer.mkEmpty.action_masks :=
  ⟨by decide, split_buffer_action_masks demoBuffer _ (by decide)⟩

/-! ## C6 and C7: `obs_as_tensor` -/

/-- C6: the single-observation path of `obs_as_tensor` produces exactly the
tensor batch of the one-element-list batch path, field for field, on every
observation and device. -/
theorem obs_as_tensor_single_eq_batch (o : Obs) (device : Device) :
    obs_as_tensor (ObsInput.one o) device
      = obs_as_tensor (ObsInput.many [o]) device := by
  simp [obs_as_tensor]

/-- C7: on an input that is neither a single observation record nor a list
of records, `obs_as_tensor` fails with the unrecognized-type error naming
the offending value's type, and returns no tensor batch. -/
theorem obs_as_tensor_other_error (tyName : String) (device : Device) :
    obs_as_tensor (ObsInput.other tyName) device
      = Except.error ("Unrecognized type of observation " ++ tyName) := by
  rfl

/-! ## C8 and C9: `solve` routing -/

/-- C8: with the single-policy override configured (non-zero) but no task
policy for that id, `solve`'s policy selection raises the lookup error for
that id — it selects neither the meta-policy nor any other policy. -/
theorem solve_override_missing_errors (s : SolverState) (overrideId vNetSize : Nat)
    (hnz : overrideId ≠ 0) (hmiss : alookup s.taskPolicies overrideId = none) :
    solveSelect s overrideId vNetSize = Except.error overrideId := by
  unfold solveSelect
  rw [if_pos hnz, hmiss]

/-- Witness for C8: override id 5 with no task policies at all. -/
theorem solve_override_missing_errors_witness :
    solveSelect { metaPolicy := 7, metaOpt := 0, taskPolicies := [], taskOpts := [],
                  bufStore := [], bufRef := 0, nextRef := 1 } 5 3
      = Except.error 5 :=
  solve_override_missing_errors _ 5 3 (by decide) rfl

/-- C9: with `infer_with_single_task_policy_id` equal to `0` — which is its
default — `solve`'s policy selection is exactly the size-based routing for
every state and instance size (so it never raises the override lookup
error, and an override targeting task id 0 is impossible). -/
theorem solve_override_zero_is_size_based (s : SolverState) (vNetSize : Nat) :
    solveSelect s 0 vNetSize = sizeBasedSelect s vNetSize
    ∧ solveSelect s defaultInferWithSingleTaskPolicyId vNetSize
        = sizeBasedSelect s vNetSize
    ∧ ∀ e, solveSelect s 0 vNetSize ≠ Except.error e := by
  have h : solveSelect s 0 vNetSize = sizeBasedSelect s vNetSize := by
    unfold solveSelect sizeBasedSelect
    simp
  refine ⟨h, h, ?_⟩
  intro e
  rw [h]
  unfold sizeBasedSelect
  cases halt : alookup s.taskPolicies vNetSize <;> simp [halt]

/-! ## Association-list lemmas -/

theorem alookup_aupdate_self {α : Type} (l : List (Nat × α)) (k : Nat) (v : α) :
    alookup (aupdate l k v) k = some v := by
  induction l with
  | nil => simp [aupdate, alookup]
  | cons kv l ih =>
    obtain ⟨k', v'⟩ := kv
    by_cases h : k' = k
    · subst h
      simp [aupdate, alookup]
    · simp [aupdate, alookup, h, ih]

theorem alookup_aupdate_ne {α : Type} (l : List (Nat × α)) (k k' : Nat) (v : α)
    (h : k ≠ k') : alookup (aupdate l k v) k' = alookup l k' := by
  induction l with
  | nil => simp [aupdate, alookup, h]
  | cons kv l ih =>
    obtain ⟨k₁, v₁⟩ := kv
    by_cases h1 : k₁ = k
    · subst h1
      simp [aupdate, alookup, h]
    · simp only [aupdate, if_neg h1, alookup]
      by_cases h2 : k₁ = k'
      · simp [h2]
      · simp [h2, ih]

theorem aupdate_of_alookup_eq {α : Type} (l : List (Nat × α)) (k : Nat) (v : α)
    (h : alookup l k = some v) : aupdate l k v = l := by
  induction l with
  | nil => simp [alookup] at h
  | cons kv l ih =>
    obtain ⟨k₁, v₁⟩ := kv
    by_cases h1 : k₁ = k
    · subst h1
      simp [alookup] at h
      simp [aupdate, h]
    · simp only [alookup, if_neg h1] at h
      simp [aupdate, h1, ih h]

/-! ## C2 and C3: the fine-tuning update loop -/

/-- The initialization pass leaves every field except the task tables
untouched. -/
theorem ftInit_frame (s : SolverState) :
    (ftInit s).bufStore = s.bufStore ∧ (ftInit s).bufRef = s.bufRef
    ∧ (ftInit s).nextRef = s.nextRef ∧ (ftInit s).metaPolicy = s.metaPolicy
    ∧ (ftInit s).metaOpt = s.metaOpt := by
  unfold ftInit
  generalize stats_task_dist (bufGet s.bufStore s.bufRef) = l
  induction l generalizing s with
  | nil => exact ⟨rfl, rfl, rfl, rfl, rfl⟩
  | cons a l ih =>
    simp only [List.foldl_cons]
    by_cases hc : alookup s.taskPolicies a.1 = none
    · rw [if_pos hc]
      exact ih _
    · rw [if_neg hc]
      exact ih _

/-- Error invariant of the inner loop: an exception raised while processing
task `t` means `t` is one of the (sorted) task keys; buffer objects at
references below the loop's starting allocator value are untouched (the
loop only writes freshly allocated references); and the policy/optimizer
table entries of every task strictly after `t` in sorted order still hold
their values from before the loop. -/
theorem ftLoop_error_inv (gu : GenericUpdate) (l : List (Nat × RolloutBuffer))
    (s0 : SolverState) (t : Nat) (se : SolverState)
    (hsorted : List.Sorted (· < ·) (l.map Prod.fst))
    (h : ftLoop gu l s0 = Except.error (t, se)) :
    t ∈ l.map Prod.fst
    ∧ (∀ r, r < s0.nextRef → alookup se.bufStore r = alookup s0.bufStore r)
    ∧ (∀ t', t' ∈ l.map Prod.fst → t < t' →
        alookup se.taskPolicies t' = alookup s0.taskPolicies t'
        ∧ alookup se.taskOpts t' = alookup s0.taskOpts t') := by
  induction l generalizing s0 with
  | nil => exact absurd h (by simp [ftLoop])
  | cons e rest ih =>
    obtain ⟨k, tb⟩ := e
    rw [List.map_cons, List.sorted_cons] at hsorted
    rw [ftLoop] at h
    cases hgu : gu ((alookup s0.taskPolicies k).getD 0) ((alookup s0.taskOpts k).getD 0) tb with
    | none =>
      rw [hgu] at h
      simp only [Except.error.injEq, Prod.mk.injEq] at h
      obtain ⟨rfl, rfl⟩ := h
      refine ⟨?_, ?_, ?_⟩
      · rw [List.map_cons]
        exact List.mem_cons_self _ _
      · intro r hr
        show alookup (aupdate s0.bufStore s0.nextRef tb) r = alookup s0.bufStore r
        exact alookup_aupdate_ne _ _ _ _ (by omega)
      · intro t' _ _
        exact ⟨rfl, rfl⟩
    | some po =>
      obtain ⟨p, o⟩ := po
      rw [hgu] at h
      obtain ⟨hmem, hstore, htasks⟩ := ih _ hsorted.2 h
      refine ⟨?_, ?_, ?_⟩
      · rw [List.map_cons]
        exact List.mem_cons_of_mem _ hmem
      · intro r hr
        rw [hstore r (Nat.lt_succ_of_lt hr)]
        show alookup (aupdate s0.bufStore s0.nextRef tb) r = alookup s0.bufStore r
        exact alookup_aupdate_ne _ _ _ _ (by omega)
      · intro t' ht' hlt
        have hkt : k < t := hsorted.1 t hmem
        rw [List.map_cons] at ht'
        rcases List.mem_cons.1 ht' with h1 | h1
        · have ht'k : t' = k := h1
          omega
        · have h2 := htasks t' h1 hlt
          have hkne : k ≠ t' := by
            have := hsorted.1 t' h1
            omega
          constructor
          · rw [h2.1]
            show alookup (aupdate s0.taskPolicies k p) t' = alookup s0.taskPolicies t'
            exact alookup_aupdate_ne _ _ _ _ hkne
          · rw [h2.2]
            show alookup (aupdate s0.taskOpts k o) t' = alookup s0.taskOpts t'
            exact alookup_aupdate_ne _ _ _ _ hkne

/-- C2: when `update()` completes (the generic per-task update having
succeeded for every task present, so that no exception escaped), the
original unsplit buffer object — the one `self.buffer` pointed to when
`update()` was entered — has been cleared: all of its per-step sequences
are empty, so none of this cycle's collected experience remains in it. -/
theorem update_clears_meta_buffer (gu : GenericUpdate) (s s' : SolverState)
    (h : solverUpdate gu s = Except.ok s') :
    bufGet s'.bufStore s.bufRef = RolloutBuffer.mkEmpty := by
  unfold solverUpdate fine_tuning_update at h
  cases hfl : ftLoop gu (split_buffer (bufGet s.bufStore s.bufRef)) (ftInit s) with
  | error e =>
    rw [hfl] at h
    exact absurd h (by simp)
  | ok s1 =>
    rw [hfl] at h
    simp only [Except.ok.injEq] at h
    subst h
    unfold bufGet
    rw [alookup_aupdate_self]
    rfl

/-- C3: if the generic update raises while processing task `t`, the
exception escapes `update()` uncaught, `t` is one of the buffer's task
ids, every task id after `t` in the sorted order keeps the policy and
optimizer it had when the per-task loop started (it is not processed),
and the original unsplit meta buffer object still holds its pre-call
contents (it is not cleared). -/
theorem update_failure_failfast (gu : GenericUpdate) (s : SolverState)
    (t : Nat) (se : SolverState) (href : s.bufRef < s.nextRef)
    (h : solverUpdate gu s = Except.error (t, se)) :
    t ∈ (split_buffer (bufGet s.bufStore s.bufRef)).map Prod.fst
    ∧ bufGet se.bufStore s.bufRef = bufGet s.bufStore s.bufRef
    ∧ (∀ t', t' ∈ (split_buffer (bufGet s.bufStore s.bufRef)).map Prod.fst →
        t < t' →
        alookup se.taskPolicies t' = alookup (ftInit s).taskPolicies t'
        ∧ alookup se.taskOpts t' = alookup (ftInit s).taskOpts t') := by
  unfold solverUpdate fine_tuning_update at h
  cases hfl : ftLoop gu (split_buffer (bufGet s.bufStore s.bufRef)) (ftInit s) with
  | ok s1 =>
    rw [hfl] at h
    exact absurd h (by simp)
  | error e =>
    rw [hfl] at h
    simp only [Except.error.injEq] at h
    subst h
    have hsorted : List.Sorted (· < ·)
        ((split_buffer (bufGet s.bufStore s.bufRef)).map Prod.fst) := by
      rw [split_buffer_keys]
      exact sorted_sortedUniq _
    obtain ⟨hmem, hstore, htasks⟩ := ftLoop_error_inv gu _ _ t se hsorted hfl
    obtain ⟨hbs, _, hnr, _, _⟩ := ftInit_frame s
    refine ⟨hmem, ?_, htasks⟩
    unfold bufGet
    rw [hstore s.bufRef (by rw [hnr]; exact href), hbs]

/-- A generic update that always succeeds, bumping both tokens. -/
def guOk : GenericUpdate := fun p o _ => some (p + 1, o + 1)

/-- A generic update that always raises. -/
def guFail : GenericUpdate := fun _ _ _ => none

/-- A solver state holding the scenario buffer as its accumulated
experience. -/
def demoState : SolverState :=
  { metaPolicy := 100, metaOpt := 50, taskPolicies := [], taskOpts := [],
    bufStore := [(0, demoBuffer)], bufRef := 0, nextRef := 1 }

/-- Extract the success state of an update result. -/
def okStateOf (r : Except (Nat × SolverState) SolverState) : SolverState :=
  match r with
  | Except.ok s => s
  | Except.error e => e.2

/-- Extract the error payload of an update result. -/
def errOf (r : Except (Nat × SolverState) SolverState) : Nat × SolverState :=
  match r with
  | Except.error e => e
  | Except.ok s => (0, s)

/-- Witness for C2: running `update()` on the scenario state with an
always-succeeding generic update clears the original buffer object. -/
theorem update_clears_meta_buffer_witness :
    solverUpdate guOk demoState = Except.ok (okStateOf (solverUpdate guOk demoState))
    ∧ bufGet (okStateOf (solverUpdate guOk demoState)).bufStore demoState.bufRef
        = RolloutBuffer.mkEmpty :=
  ⟨rfl, update_clears_meta_buffer guOk demoState _ rfl⟩

/-- Witness for C3: a failing generic update on the scenario state leaves
the original buffer object intact. -/
theorem update_failure_failfast_witness :
    demoState.bufRef < demoState.nextRef
    ∧ solverUpdate guFail demoState
        = Except.error (errOf (solverUpdate guFail demoState))
    ∧ bufGet (errOf (solverUpdate guFail demoState)).2.bufStore demoState.bufRef
        = bufGet demoState.bufStore demoState.bufRef :=
  ⟨by decide, rfl,
   (update_failure_failfast guFail demoState (errOf (solverUpdate guFail demoState)).1
      (errOf (solverUpdate guFail demoState)).2 (by decide) rfl).2.1⟩

/-! ## C4: checkpoint load failure tolerance -/

/-- A checkpoint whose meta entry restores fine but whose `task_policies`
key is missing, so restoration fails after the meta-policy has already
been overwritten. -/
def ckptPartial : CkptFile :=
  CkptFile.readable { meta := some (some 2, some 3), tasks := none }

/-- A pristine solver state to load checkpoints into. -/
def ckptState : SolverState :=
  { metaPolicy := 1, metaOpt := 1, taskPolicies := [], taskOpts := [],
    bufStore := [], bufRef := 0, nextRef := 1 }

/-- Counterexample to C4 as stated: on a checkpoint whose restoration
fails partway (missing `task_policies` key — a failure the claim covers),
`load_model` does swallow the exception, but the meta-policy parameters
are NOT left at their pre-call value: the restoration steps already
executed remain applied. -/
theorem load_model_not_unchanged_on_failure :
    loadBody ckptState ckptPartial = Except.error (load_model ckptState ckptPartial)
    ∧ (load_model ckptState ckptPartial).metaPolicy ≠ ckptState.metaPolicy :=
  ⟨rfl, by decide⟩

/-- C4 (amended): `load_model` never propagates an exception — any failure
inside the body is swallowed, the method returning the state as of the
raise point; and for every failure occurring before the first restoration
step (unreadable or missing file, missing `meta_policy` key, meta-policy
schema mismatch) all parameters and optimizer states are left exactly at
their pre-call values. -/
theorem load_model_best_effort :
    (∀ s f serr, loadBody s f = Except.error serr → load_model s f = serr)
    ∧ (∀ s, load_model s CkptFile.unreadable = s)
    ∧ (∀ s d, d.meta = none → load_model s (CkptFile.readable d) = s)
    ∧ (∀ s mo ts, load_model s (CkptFile.readable ⟨some (none, mo), ts⟩) = s) := by
  refine ⟨?_, ?_, ?_, ?_⟩
  · intro s f serr h
    unfold load_model
    rw [h]
  · intro s
    rfl
  · intro s d h
    obtain ⟨m, ts⟩ := d
    simp only at h
    subst h
    rfl
  · intro s mo ts
    rfl

/-- The state carried by a load-body outcome. -/
def errStateOf (r : Except SolverState SolverState) : SolverState :=
  match r with
  | Except.error s => s
  | Except.ok s => s

/-- Witness for C4 (amended): the swallow clause at the failing checkpoint
and the unchanged clause at an unreadable file and at a checkpoint with a
missing meta entry. -/
theorem load_model_best_effort_witness :
    load_model ckptState ckptPartial = errStateOf (loadBody ckptState ckptPartial)
    ∧ load_model ckptState CkptFile.unreadable = ckptState
    ∧ load_model ckptState (CkptFile.readable ⟨none, none⟩) = ckptState :=
  ⟨load_model_best_effort.1 ckptState ckptPartial
      (errStateOf (loadBody ckptState ckptPartial)) rfl,
   load_model_best_effort.2.1 ckptState,
   load_model_best_effort.2.2.1 ckptState ⟨none, none⟩ rfl⟩

/-! ## C5: checkpoint round trip -/

theorem alookup_of_mem_nodup {α : Type} {l : List (Nat × α)} {k : Nat} {v : α}
    (hmem : (k, v) ∈ l) (hnodup : (l.map Prod.fst).Nodup) :
    alookup l k = some v := by
  induction l with
  | nil => simp at hmem
  | cons kv rest ih =>
    obtain ⟨k₁, v₁⟩ := kv
    rw [List.map_cons, List.nodup_cons] at hnodup
    rcases List.mem_cons.1 hmem with h | h
    · rw [Prod.mk.injEq] at h
      obtain ⟨rfl, rfl⟩ := h
      rw [alookup, if_pos rfl]
    · have hk : k₁ ≠ k := by
        intro hc
        subst hc
        exact hnodup.1 (List.mem_map.2 ⟨(k₁, v), h, rfl⟩)
      rw [alookup, if_neg hk]
      exact ih h hnodup.2

theorem ensureTask_present (s : SolverState) (tid : Nat) (p : Params)
    (h : alookup s.taskPolicies tid = some p) : ensureTask s tid = s := by
  unfold ensureTask
  rw [if_neg (by rw [h]; simp)]

theorem ensureTask_lookup_ne (s : SolverState) (tid k : Nat) (h : tid ≠ k) :
    alookup (ensureTask s tid).taskPolicies k = alookup s.taskPolicies k
    ∧ alookup (ensureTask s tid).taskOpts k = alookup s.taskOpts k := by
  unfold ensureTask
  by_cases hc : alookup s.taskPolicies tid = none
  · rw [if_pos hc]
    exact ⟨alookup_aupdate_ne _ _ _ _ h, alookup_aupdate_ne _ _ _ _ h⟩
  · rw [if_neg hc]
    exact ⟨rfl, rfl⟩

theorem ensureTask_meta (s : SolverState) (tid : Nat) :
    (ensureTask s tid).metaPolicy = s.metaPolicy
    ∧ (ensureTask s tid).metaOpt = s.metaOpt := by
  unfold ensureTask
  by_cases hc : alookup s.taskPolicies tid = none
  · rw [if_pos hc]
    exact ⟨rfl, rfl⟩
  · rw [if_neg hc]
    exact ⟨rfl, rfl⟩

/-- What a successful `saveTasks` run contains: one entry per task policy
in order, each carrying the policy value and the looked-up optimizer
state. -/
theorem saveTasks_spec (opts : List (Nat × OptState)) (l : List (Nat × Params))
    (es : List (Nat × (SavedDict Params × SavedDict OptState)))
    (h : saveTasks opts l = some es) :
    es.map Prod.fst = l.map Prod.fst
    ∧ (∀ e ∈ es, ∃ p o, e.2 = (some p, some o)
        ∧ (e.1, p) ∈ l ∧ alookup opts e.1 = some o)
    ∧ (∀ tp ∈ l, ∃ o, alookup opts tp.1 = some o
        ∧ (tp.1, (some tp.2, some o)) ∈ es) := by
  induction l generalizing es with
  | nil =>
    simp only [saveTasks, Option.some.injEq] at h
    subst h
    simp
  | cons tp rest ih =>
    obtain ⟨tid, p⟩ := tp
    rw [saveTasks] at h
    cases ho : alookup opts tid with
    | none =>
      rw [ho] at h
      exact absurd h (by simp)
    | some o =>
      rw [ho] at h
      cases hrest : saveTasks opts rest with
      | none =>
        rw [hrest] at h
        exact absurd h (by simp)
      | some es' =>
        rw [hrest] at h
        simp only [Option.some.injEq] at h
        subst h
        obtain ⟨hkeys, hfor, hback⟩ := ih es' hrest
        refine ⟨by simp [hkeys], ?_, ?_⟩
        · intro e he
          rcases List.mem_cons.1 he with h | h
          · subst h
            exact ⟨p, o, rfl, List.mem_cons_self _ _, ho⟩
          · obtain ⟨p', o', h1, h2, h3⟩ := hfor e h
            exact ⟨p', o', h1, List.mem_cons_of_mem _ h2, h3⟩
        · intro tq hq
          rcases List.mem_cons.1 hq with h | h
          · subst h
            exact ⟨o, ho, List.mem_cons_self _ _⟩
          · obtain ⟨o', h1, h2⟩ := hback tq h
            exact ⟨o', h1, List.mem_cons_of_mem _ h2⟩

/-- Restoring entries whose saved values already agree with the in-memory
tables is the identity. -/
theorem loadTasks_id (s : SolverState)
    (entries : List (Nat × (SavedDict Params × SavedDict OptState)))
    (h : ∀ e ∈ entries,
        (∃ p, e.2.1 = some p ∧ alookup s.taskPolicies e.1 = some p)
        ∧ (∃ o, e.2.2 = some o ∧ alookup s.taskOpts e.1 = some o)) :
    loadTasks s entries = Except.ok s := by
  induction entries with
  | nil => rfl
  | cons e rest ih =>
    obtain ⟨tid, sp, so⟩ := e
    obtain ⟨⟨p, hsp, hlp⟩, ⟨o, hso, hlo⟩⟩ := h _ (List.mem_cons_self _ _)
    simp only at hsp hso
    subst hsp
    subst hso
    simp only [loadTasks]
    rw [ensureTask_present s tid p hlp]
    rw [aupdate_of_alookup_eq _ _ _ hlp]
    rw [aupdate_of_alookup_eq _ _ _ hlo]
    show loadTasks s rest = Except.ok s
    exact ih (fun e he => h e (List.mem_cons_of_mem _ he))

/-- Restoring well-formed entries with pairwise distinct task ids succeeds
and installs exactly the saved values, leaving other keys and the
meta-policy untouched. -/
theorem loadTasks_fresh (entries : List (Nat × (SavedDict Params × SavedDict OptState)))
    (s0 : SolverState)
    (hshape : ∀ e ∈ entries, (∃ p, e.2.1 = some p) ∧ (∃ o, e.2.2 = some o))
    (hnodup : (entries.map Prod.fst).Nodup) :
    ∃ sf, loadTasks s0 entries = Except.ok sf
      ∧ (∀ e ∈ entries, alookup sf.taskPolicies e.1 = e.2.1
          ∧ alookup sf.taskOpts e.1 = e.2.2)
      ∧ (∀ k, k ∉ entries.map Prod.fst →
          alookup sf.taskPolicies k = alookup s0.taskPolicies k
          ∧ alookup sf.taskOpts k = alookup s0.taskOpts k)
      ∧ sf.metaPolicy = s0.metaPolicy ∧ sf.metaOpt = s0.metaOpt := by
  induction entries generalizing s0 with
  | nil => exact ⟨s0, rfl, by simp, fun k _ => ⟨rfl, rfl⟩, rfl, rfl⟩
  | cons e rest ih =>
    obtain ⟨tid, sp, so⟩ := e
    obtain ⟨⟨p, hsp⟩, ⟨o, hso⟩⟩ := hshape _ (List.mem_cons_self _ _)
    simp only at hsp hso
    subst hsp
    subst hso
    rw [List.map_cons, List.nodup_cons] at hnodup
    obtain ⟨sf, hok, hin, hout, hmp, hmo⟩ :=
      ih { { ensureTask s0 tid with
              taskPolicies := aupdate (ensureTask s0 tid).taskPolicies tid p } with
           taskOpts := aupdate (ensureTask s0 tid).taskOpts tid o }
        (fun e he => hshape e (List.mem_cons_of_mem _ he)) hnodup.2
    have hselfP : alookup sf.taskPolicies tid = some p := by
      rw [(hout tid hnodup.1).1]
      exact alookup_aupdate_self _ _ _
    have hselfO : alookup sf.taskOpts tid = some o := by
      rw [(hout tid hnodup.1).2]
      exact alookup_aupdate_self _ _ _
    refine ⟨sf, hok, ?_, ?_, ?_, ?_⟩
    · intro e he
      rcases List.mem_cons.1 he with h | h
      · subst h
        exact ⟨hselfP, hselfO⟩
      · exact hin e h
    · intro k hk
      rw [List.map_cons, List.mem_cons] at hk
      push_neg at hk
      have h1 := hout k hk.2
      have h2 := ensureTask_lookup_ne s0 tid k (by
        intro hc
        exact hk.1 hc.symm)
      constructor
      · rw [h1.1, alookup_aupdate_ne _ _ _ _ (by
          intro hc
          exact hk.1 hc.symm), h2.1]
      · rw [h1.2, alookup_aupdate_ne _ _ _ _ (by
          intro hc
          exact hk.1 hc.symm), h2.2]
    · rw [hmp]
      exact (ensureTask_meta s0 tid).1
    · rw [hmo]
      exact (ensureTask_meta s0 tid).2

/-- C5: `save_model` followed by `load_model` with no intervening training
restores everything.  Loading the checkpoint back into the very state that
was saved is the identity (meta-policy, meta-optimizer, every task policy
and task optimizer are parameter-for-parameter equal to their pre-save
values); and loading it into a state whose task tables were emptied
recreates each task policy (as a copy of the freshly restored meta-policy,
then overwritten with the saved state), ending with every saved task id
mapped to exactly its pre-save policy parameters and optimizer state, and
with the meta pair restored. -/
theorem save_load_roundtrip (s : SolverState) (ck : CkptData)
    (hnodup : (s.taskPolicies.map Prod.fst).Nodup)
    (hsave : save_model s = some ck) :
    load_model s (CkptFile.readable ck) = s
    ∧ (∀ tid, tid ∈ s.taskPolicies.map Prod.fst →
        alookup (load_model { s with taskPolicies := [], taskOpts := [] }
            (CkptFile.readable ck)).taskPolicies tid = alookup s.taskPolicies tid
        ∧ alookup (load_model { s with taskPolicies := [], taskOpts := [] }
            (CkptFile.readable ck)).taskOpts tid = alookup s.taskOpts tid)
    ∧ (load_model { s with taskPolicies := [], taskOpts := [] }
        (CkptFile.readable ck)).metaPolicy = s.metaPolicy
    ∧ (load_model { s with taskPolicies := [], taskOpts := [] }
        (CkptFile.readable ck)).metaOpt = s.metaOpt := by
  unfold save_model at hsave
  cases hst : saveTasks s.taskOpts s.taskPolicies with
  | none =>
    rw [hst] at hsave
    exact absurd hsave (by simp)
  | some entries =>
    rw [hst] at hsave
    simp only [Option.some.injEq] at hsave
    subst hsave
    obtain ⟨hkeys, hfor, hback⟩ := saveTasks_spec _ _ _ hst
    have hnodup' : (entries.map Prod.fst).Nodup := by
      rw [hkeys]
      exact hnodup
    have hid : loadTasks s entries = Except.ok s := by
      apply loadTasks_id
      intro e he
      obtain ⟨p, o, h2, hmemp, hlo⟩ := hfor e he
      refine ⟨⟨p, by rw [h2], alookup_of_mem_nodup hmemp hnodup⟩,
              ⟨o, by rw [h2], hlo⟩⟩
    obtain ⟨sf, hok, hin, hout, hmp, hmo⟩ :=
      loadTasks_fresh entries { s with taskPolicies := [], taskOpts := [] }
        (fun e he => by
          obtain ⟨p, o, h2, _, _⟩ := hfor e he
          exact ⟨⟨p, by rw [h2]⟩, ⟨o, by rw [h2]⟩⟩)
        hnodup'
    have hload2 : load_model { s with taskPolicies := [], taskOpts := [] }
        (CkptFile.readable
          { meta := some (some s.metaPolicy, some s.metaOpt),
            tasks := some entries }) = sf := by
      show (match loadTasks { s with taskPolicies := [], taskOpts := [] } entries with
            | Except.ok s' => s'
            | Except.error s' => s') = sf
      rw [hok]
    refine ⟨?_, ?_, ?_, ?_⟩
    · show (match loadTasks s entries with
            | Except.ok s' => s'
            | Except.error s' => s') = s
      rw [hid]
    · intro tid htid
      obtain ⟨tp, hmemtp, htp1⟩ := List.mem_map.1 htid
      obtain ⟨p⟩ := tp
      subst htp1
      obtain ⟨o, hlo, hment⟩ := hback _ hmemtp
      have := hin _ hment
      rw [hload2]
      constructor
      · rw [this.1]
        exact (alookup_of_mem_nodup hmemtp hnodup).symm
      · rw [this.2]
        exact hlo.symm
    · rw [hload2, hmp]
    · rw [hload2, hmo]

/-- A state with two trained task policies for the round-trip witness. -/
def rtState : SolverState :=
  { metaPolicy := 100, metaOpt := 50, taskPolicies := [(3, 7), (5, 9)],
    taskOpts := [(3, 70), (5, 90)], bufStore := [], bufRef := 0, nextRef := 1 }

/-- Witness for C5: a concrete save-then-load round trip is the identity. -/
theorem save_load_roundtrip_witness :
    (rtState.taskPolicies.map Prod.fst).Nodup
    ∧ save_model rtState = some ((save_model rtState).getD default)
    ∧ load_model rtState (CkptFile.readable ((save_model rtState).getD default))
        = rtState :=
  ⟨by decide, rfl,
   (save_load_roundtrip rtState ((save_model rtState).getD default)
      (by decide) rfl).1⟩
